import Mathlib

/-!
Verification of the map-viewer application (`src/App.tsx`) against its
natural-language specification.

The embedding models the pure logic of the component: coordinate parsing
(JavaScript `parseFloat` on the relevant decimal fragment), the saved-point
collection and its operations, the bundled-dataset merge, the viewport
visibility filter, the search short-circuit decision, and the React
effect lifecycle of the render surface.  Numbers are modelled as `ℚ`
(the source manipulates exact decimal literals and comparisons only),
strings as `List Char`.
-/

namespace MapApp

attribute [local semireducible] Rat.add Rat.mul Rat.inv Rat.sub

/-- `SavedCoord` record from `App.tsx` (interface SavedCoord):
`{ id: string; lat: number; lon: number; name?: string; description?: string }`. -/
structure SavedCoord where
  id : String
  lat : ℚ
  lon : ℚ
  name : Option String := none
  descr : Option String := none
deriving DecidableEq, Repr

/-- `LocationData` record from `App.tsx`: a bundled-dataset entry
`{ name: string; lat: number; lon: number; description: string }`. -/
structure LocationData where
  name : String
  lat : ℚ
  lon : ℚ
  descr : String
deriving DecidableEq, Repr

/-- Map viewport bounding box, as read in `handleMapViewChange` from
`map.getBounds()` (south/north = min/max latitude, west/east = min/max longitude). -/
structure Viewport where
  minLat : ℚ
  maxLat : ℚ
  minLon : ℚ
  maxLon : ℚ
deriving DecidableEq, Repr

/-- The visibility filter of `handleMapViewChange` (App.tsx lines 194–200):
`savedCoords.filter(coord => coord.lat >= minLat && coord.lat <= maxLat &&
coord.lon >= minLon && coord.lon <= maxLon)`. -/
def visibleCoords (v : Viewport) (savedCoords : List SavedCoord) : List SavedCoord :=
  savedCoords.filter fun coord =>
    decide (v.minLat ≤ coord.lat) && decide (coord.lat ≤ v.maxLat) &&
    decide (v.minLon ≤ coord.lon) && decide (coord.lon ≤ v.maxLon)

/-- The id string built for a bundled point in `loadLocations`:
``location-${location.lon}-${location.lat}`` (note: template receives `lon` first).
JavaScript's number-to-string is injective on numbers, as `toString` is on `ℚ`,
and ids are only ever compared for equality. -/
def locId (a b : ℚ) : String :=
  "location-" ++ toString a ++ "-" ++ toString b

/-- Conversion of one bundled record to a `SavedCoord` in `loadLocations`
(App.tsx lines 63–69): the JSON `lat`/`lon` fields are consumed swapped. -/
def convertLocation (location : LocationData) : SavedCoord :=
  { id := locId location.lon location.lat
    lat := location.lon
    lon := location.lat
    name := some location.name
    descr := some location.descr }

/-- `locations.map(...)` in `loadLocations`. -/
def locationsToCoords (locations : List LocationData) : List SavedCoord :=
  locations.map convertLocation

/-- The merge step of `loadLocations` (App.tsx lines 72–77): keep the previous
collection, append those converted bundled points whose id is not already present. -/
def loadLocations (locations : List LocationData) (prev : List SavedCoord) :
    List SavedCoord :=
  let newCoords := locationsToCoords locations
  let existingIds := prev.map (·.id)
  let toAdd := newCoords.filter fun coord => !(existingIds.contains coord.id)
  prev ++ toAdd

/-- `handleSaveCoord` (App.tsx lines 152–162): append a record whose id is the
current `Date.now().toString()` token; fires only when a focus location is set,
so latitude/longitude and the name string are inputs here. -/
def handleSaveCoord (id : String) (lat lon : ℚ) (name : String)
    (prev : List SavedCoord) : List SavedCoord :=
  prev ++ [{ id := id, lat := lat, lon := lon, name := some name, descr := none }]

/-- `handleDeleteCoord` (App.tsx lines 164–166):
`prev.filter(coord => coord.id !== id)`. -/
def handleDeleteCoord (id : String) (prev : List SavedCoord) : List SavedCoord :=
  prev.filter fun coord => coord.id != id

/-- The ids occurring in a collection. -/
def idsOf (coords : List SavedCoord) : List String :=
  coords.map (·.id)

/-- The spec's invariant: each id occurs at most once in the collection. -/
def idsUnique (coords : List SavedCoord) : Prop :=
  (idsOf coords).Nodup

instance (coords : List SavedCoord) : Decidable (idsUnique coords) := by
  unfold idsUnique; infer_instance

/-- Claim C1: a point is in the visible subset computed by the viewport
synchronizer iff it is in the collection and lies within all four bounds,
inclusive on each. -/
theorem visibleCoords_mem_iff (v : Viewport) (s : List SavedCoord) (p : SavedCoord) :
    p ∈ visibleCoords v s ↔
      p ∈ s ∧ v.minLat ≤ p.lat ∧ p.lat ≤ v.maxLat ∧
        v.minLon ≤ p.lon ∧ p.lon ≤ v.maxLon := by
  simp [visibleCoords, List.mem_filter, and_assoc]

/-- Claim C6: the bundled-dataset conversion swaps the record's `lat`/`lon`
fields (resulting latitude is the record's `lon` and vice versa) and derives the
id deterministically from the swapped pair; in particular the record
`{name := "A", lat := 10, lon := 20}` yields latitude 20, longitude 10 and the
id derived from (20, 10). -/
theorem convertLocation_swaps (l : LocationData) :
    (convertLocation l).lat = l.lon ∧ (convertLocation l).lon = l.lat ∧
      (convertLocation l).id = locId l.lon l.lat ∧
      (convertLocation { name := "A", lat := 10, lon := 20, descr := "" }).lat = 20 ∧
      (convertLocation { name := "A", lat := 10, lon := 20, descr := "" }).lon = 10 ∧
      (convertLocation { name := "A", lat := 10, lon := 20, descr := "" }).id =
        locId 20 10 := by
  refine ⟨rfl, rfl, rfl, rfl, rfl, rfl⟩

/-- Claim C7: when every bundled point's id already occurs in the collection,
re-running the bundled-dataset merge returns the collection unchanged (so in
particular it adds no points and preserves the size). -/
theorem loadLocations_idempotent (locations : List LocationData)
    (prev : List SavedCoord)
    (h : ∀ c ∈ locationsToCoords locations, c.id ∈ idsOf prev) :
    loadLocations locations prev = prev := by
  have hfilter :
      (locationsToCoords locations).filter
        (fun coord => !((prev.map (·.id)).contains coord.id)) = [] := by
    rw [List.filter_eq_nil_iff]
    intro c hc
    have hmem := h c hc
    simp only [idsOf] at hmem
    simp [hmem]
  show prev ++ (locationsToCoords locations).filter
      (fun coord => !((prev.map (·.id)).contains coord.id)) = prev
  rw [hfilter, List.append_nil]

/-- Witness for C7 on a concrete dataset and collection. -/
theorem loadLocations_idempotent_witness :
    loadLocations [{ name := "A", lat := 10, lon := 20, descr := "d" }]
        [convertLocation { name := "A", lat := 10, lon := 20, descr := "d" }] =
      [convertLocation { name := "A", lat := 10, lon := 20, descr := "d" }] :=
  loadLocations_idempotent _ _ (by decide)

/-- Claim C8: saving a point whose fresh id does not occur in the collection and
then deleting that id restores the collection exactly (same elements, same order). -/
theorem save_then_delete_roundtrip (prev : List SavedCoord) (id : String)
    (lat lon : ℚ) (name : String) (h : id ∉ idsOf prev) :
    handleDeleteCoord id (handleSaveCoord id lat lon name prev) = prev := by
  unfold handleSaveCoord handleDeleteCoord
  rw [List.filter_append]
  have h2 : List.filter (fun coord => coord.id != id)
      [{ id := id, lat := lat, lon := lon, name := some name, descr := none }] =
      ([] : List SavedCoord) := by
    simp [List.filter]
  rw [h2, List.append_nil, List.filter_eq_self]
  intro c hc
  simp only [bne_iff_ne, ne_eq]
  intro hdi
  exact h (hdi ▸ List.mem_map_of_mem (·.id) hc)

/-- Witness for C8 at a concrete collection and point. -/
theorem save_then_delete_roundtrip_witness :
    handleDeleteCoord "99"
        (handleSaveCoord "99" 1 2 "p"
          [{ id := "1", lat := 0, lon := 0, name := none, descr := none }]) =
      [{ id := "1", lat := 0, lon := 0, name := none, descr := none }] :=
  save_then_delete_roundtrip _ "99" 1 2 "p" (by decide)

/-- Claim C10: the bundled-dataset merge leaves the existing collection as an
unchanged prefix of the result (nothing removed, reordered or modified), and
every appended point is a converted bundled point whose id was not already
present. -/
theorem loadLocations_preserves_prev (locations : List LocationData)
    (prev : List SavedCoord) :
    (loadLocations locations prev).take prev.length = prev ∧
      ∀ c ∈ (loadLocations locations prev).drop prev.length,
        c ∈ locationsToCoords locations ∧ c.id ∉ idsOf prev := by
  constructor
  · unfold loadLocations
    simp [List.take_left]
  · intro c hc
    unfold loadLocations at hc
    simp only [List.drop_left] at hc
    have := List.of_mem_filter hc
    refine ⟨List.mem_of_mem_filter hc, ?_⟩
    simpa [idsOf] using this

/-! ### Coordinate parsing (`handleShow`) and the search short-circuit -/

/-- JavaScript number values as far as this component observes them:
finite values (kept exact as rationals), the two infinities, and NaN. -/
inductive JSNum where
  | num (q : ℚ)
  | inf (neg : Bool)
  | nan
deriving DecidableEq, Repr

/-- Global `isNaN` on a `JSNum` (a missing destructured value, `undefined`,
coerces to NaN and is modelled as `JSNum.nan`). -/
def JSNum.isNaN : JSNum → Bool
  | .nan => true
  | _ => false

/-- ASCII whitespace as trimmed by `String.prototype.trim` and skipped by
`parseFloat` (the source never feeds the further Unicode whitespace characters
to these, so the ASCII fragment is modelled). -/
def jsWhitespace (c : Char) : Bool :=
  c == ' ' || c == '\t' || c == '\n' || c == '\r' || c == '\x0B' || c == '\x0C'

/-- `String.prototype.trim` on the ASCII-whitespace fragment. -/
def jsTrim (s : List Char) : List Char :=
  ((s.dropWhile jsWhitespace).reverse.dropWhile jsWhitespace).reverse

/-- Value of a digit string, most significant first. -/
def digitsToNat (ds : List Char) : Nat :=
  ds.foldl (fun n c => 10 * n + (c.toNat - 48)) 0

/-- Value of a fractional digit string (the digits after the decimal point). -/
def fracVal (ds : List Char) : ℚ :=
  (digitsToNat ds : ℚ) / (10 : ℚ) ^ ds.length

/-- Scale a mantissa by a decimal exponent. -/
def applyExp (q : ℚ) (e : Int) : ℚ :=
  if 0 ≤ e then q * 10 ^ e.toNat else q / 10 ^ (-e).toNat

/-- The optional `.digits*` part of a decimal literal: digits after a leading
decimal point, and the unconsumed remainder. -/
def parseFracPart (rest : List Char) : List Char × List Char :=
  if rest.headD ' ' = '.' then
    (rest.tail.takeWhile Char.isDigit, rest.tail.dropWhile Char.isDigit)
  else ([], rest)

/-- Signed exponent digits after the `e`/`E` marker; an invalid exponent part
contributes nothing (`parseFloat` keeps the longest valid literal prefix). -/
def expDigitsVal (neg : Bool) (cs : List Char) : Int :=
  let ds := cs.takeWhile Char.isDigit
  if ds.isEmpty then 0
  else if neg then -(digitsToNat ds : Int) else (digitsToNat ds : Int)

/-- Exponent value after the `e`/`E` marker, with optional sign. -/
def parseExpAfterE (r : List Char) : Int :=
  if r.headD ' ' = '-' then expDigitsVal true r.tail
  else if r.headD ' ' = '+' then expDigitsVal false r.tail
  else expDigitsVal false r

/-- The optional exponent part of a decimal literal. -/
def parseExpPart (cs : List Char) : Int :=
  match cs with
  | [] => 0
  | c :: r => if c = 'e' ∨ c = 'E' then parseExpAfterE r else 0

/-- Whether the string starts with the literal `Infinity`. -/
def hasInfinityHead (cs : List Char) : Bool :=
  decide (cs.take 8 = ['I', 'n', 'f', 'i', 'n', 'i', 't', 'y'])

/-- `parseFloat` on an unsigned remainder: `Infinity`, or
`digits* [. digits*] [exponent]` needing at least one digit, NaN otherwise. -/
def parseUnsignedFloat (cs : List Char) : JSNum :=
  if hasInfinityHead cs then JSNum.inf false
  else
    let intDs := cs.takeWhile Char.isDigit
    let fr := parseFracPart (cs.dropWhile Char.isDigit)
    if intDs.isEmpty && fr.1.isEmpty then JSNum.nan
    else JSNum.num (applyExp ((digitsToNat intDs : ℚ) + fracVal fr.1) (parseExpPart fr.2))

/-- JavaScript `parseFloat`: skip leading whitespace, optional sign, then the
longest prefix that is a decimal literal or `Infinity`; NaN when there is none.
(The sign of zero is not tracked: the component never distinguishes `-0`.) -/
def parseFloat (s : List Char) : JSNum :=
  match s.dropWhile jsWhitespace with
  | [] => JSNum.nan
  | c :: r =>
    if c = '-' then
      match parseUnsignedFloat r with
      | JSNum.num q => JSNum.num (-q)
      | JSNum.inf _ => JSNum.inf true
      | JSNum.nan => JSNum.nan
    else if c = '+' then parseUnsignedFloat r
    else parseUnsignedFloat (c :: r)

/-- `String.prototype.split(",")`: pieces between commas; never empty. -/
def splitComma : List Char → List (List Char)
  | [] => [[]]
  | c :: rest =>
    if c = ',' then [] :: splitComma rest
    else
      match splitComma rest with
      | [] => [[c]]
      | h :: t => (c :: h) :: t

/-- The coordinate parsing of `handleShow` (App.tsx 131–135): split the input
on commas, trim and `parseFloat` each piece, destructure the first two results
(a missing second piece is `undefined`, i.e. NaN to `isNaN`).  Returns the pair
when neither is NaN, `none` (the alert branch) otherwise. -/
def parseCoordInput (coords : List Char) : Option (JSNum × JSNum) :=
  let vals := (splitComma coords).map fun v => parseFloat (jsTrim v)
  let latitude := vals.headD JSNum.nan
  let longitude := (vals.drop 1).headD JSNum.nan
  if latitude.isNaN || longitude.isNaN then none
  else some (latitude, longitude)

/-- The unsigned part `\d+\.?\d*` of the coordinate token. -/
def numTokenUnsignedParse (cs : List Char) : Option (ℚ × List Char) :=
  let intDs := cs.takeWhile Char.isDigit
  if intDs.isEmpty then none
  else
    let fr := parseFracPart (cs.dropWhile Char.isDigit)
    some ((digitsToNat intDs : ℚ) + fracVal fr.1, fr.2)

/-- One `<number>` token of the coordinate-pair shape: the regex `-?\d+\.?\d*`
(App.tsx line 99), which is also the spec's "`<number>` with optional
sign/decimal".  Returns the token's exact value and the unconsumed remainder;
deterministic maximal munch is equivalent to the regex since token characters
are digits, one optional leading minus and one optional dot. -/
def numTokenParse (cs : List Char) : Option (ℚ × List Char) :=
  if cs.headD ' ' = '-' then
    (numTokenUnsignedParse cs.tail).map fun qr => (-qr.1, qr.2)
  else numTokenUnsignedParse cs

/-- Second stage of the coordinate-pair shape: after the first token's value,
expect a comma, a second token, and the end of the input. -/
def specPairAfter (q1 : ℚ) (rest : List Char) : Option (ℚ × ℚ) :=
  if rest.headD ' ' = ',' then
    match numTokenParse rest.tail with
    | none => none
    | some (q2, rest3) => if rest3.isEmpty then some (q1, q2) else none
  else none

/-- Modelled from the spec's words (refinement side of claim C2): the
coordinate-pair shape `<number>,<number>` with optional sign and decimal part,
together with the two values such a string denotes; `none` when the string
does not match the shape. -/
def specPairShape (cs : List Char) : Option (ℚ × ℚ) :=
  match numTokenParse cs with
  | none => none
  | some (q1, rest) => specPairAfter q1 rest

/-- Second stage of the search regex: a comma, optional whitespace, a second
token, and the end of the input. -/
def coordRegexAfter (rest : List Char) : Bool :=
  if rest.headD ' ' = ',' then
    match numTokenParse (rest.tail.dropWhile jsWhitespace) with
    | none => false
    | some (_, rest4) => rest4.isEmpty
  else false

/-- The regex test of `searchPlaces` (App.tsx line 99):
`^-?\d+\.?\d*,\s*-?\d+\.?\d*$`, allowing whitespace after the comma. -/
def coordRegexMatch (cs : List Char) : Bool :=
  match numTokenParse cs with
  | none => false
  | some (_, rest) => coordRegexAfter rest

/-- Outcome of one (debounced) run of the search effect body. -/
inductive SearchAction where
  | clear
  | request (query : List Char) (limit : Nat)
deriving DecidableEq, Repr

/-- The decision logic of `searchPlaces` (App.tsx 92–109): a trimmed query
shorter than 3 characters, or one matching the coordinate regex, clears the
suggestion list and returns before any fetch; otherwise a single request with
`limit=5` is issued. -/
def searchPlaces (coords : List Char) : SearchAction :=
  if (jsTrim coords).length < 3 then SearchAction.clear
  else if coordRegexMatch coords then SearchAction.clear
  else SearchAction.request coords 5

/-- The component state `handleShow` can read or write: input text, focus
location, suggestion panel state, and the saved collection. -/
structure UIState where
  coords : List Char
  lat : Option JSNum
  lon : Option JSNum
  suggestions : List (List Char)
  showSuggestions : Bool
  selectedIndex : Int
  savedCoords : List SavedCoord
deriving DecidableEq, Repr

/-- `handleShow` (App.tsx 130–142): on parse success set the focus location and
close the suggestion panel (second component `false`: no alert); on failure
show the alert and leave every piece of state untouched. -/
def handleShow (st : UIState) : UIState × Bool :=
  match parseCoordInput st.coords with
  | some (a, b) =>
    ({ st with lat := some a, lon := some b, showSuggestions := false }, false)
  | none => (st, true)

/-! ### Lemmas about the character-level parsers -/

lemma takeWhile_append_all {p : Char → Bool} {xs : List Char} (ys : List Char)
    (h : ∀ c ∈ xs, p c = true) :
    (xs ++ ys).takeWhile p = xs ++ ys.takeWhile p := by
  induction xs with
  | nil => simp
  | cons a l ih =>
    rw [List.cons_append, List.takeWhile_cons, h a (List.mem_cons_self a l),
      if_pos rfl, ih fun c hc => h c (List.mem_cons_of_mem a hc)]
    rfl

lemma dropWhile_append_all {p : Char → Bool} {xs : List Char} (ys : List Char)
    (h : ∀ c ∈ xs, p c = true) :
    (xs ++ ys).dropWhile p = ys.dropWhile p := by
  induction xs with
  | nil => simp
  | cons a l ih =>
    rw [List.cons_append, List.dropWhile_cons, h a (List.mem_cons_self a l),
      if_pos rfl, ih fun c hc => h c (List.mem_cons_of_mem a hc)]

lemma takeWhile_eq_self_of_all {p : Char → Bool} {xs : List Char}
    (h : ∀ c ∈ xs, p c = true) : xs.takeWhile p = xs := by
  have := @takeWhile_append_all p xs [] h
  simpa using this

lemma dropWhile_eq_nil_of_all {p : Char → Bool} {xs : List Char}
    (h : ∀ c ∈ xs, p c = true) : xs.dropWhile p = [] := by
  have := @dropWhile_append_all p xs [] h
  simpa using this

lemma dropWhile_eq_self_of_all {p : Char → Bool} {xs : List Char}
    (h : ∀ c ∈ xs, p c = false) : xs.dropWhile p = xs := by
  cases xs with
  | nil => rfl
  | cons a l =>
    rw [List.dropWhile_cons, h a (List.mem_cons_self a l)]
    simp

lemma jsTrim_eq_self {xs : List Char} (h : ∀ c ∈ xs, jsWhitespace c = false) :
    jsTrim xs = xs := by
  unfold jsTrim
  rw [dropWhile_eq_self_of_all h,
    dropWhile_eq_self_of_all fun c hc => h c (List.mem_reverse.mp hc),
    List.reverse_reverse]

lemma splitComma_no_comma {xs : List Char} (h : ',' ∉ xs) : splitComma xs = [xs] := by
  induction xs with
  | nil => rfl
  | cons a l ih =>
    have ha : a ≠ ',' := fun he => h (he ▸ List.mem_cons_self a l)
    rw [splitComma, if_neg ha, ih fun hm => h (List.mem_cons_of_mem a hm)]

lemma splitComma_append {xs : List Char} (ys : List Char) (h : ',' ∉ xs) :
    splitComma (xs ++ ',' :: ys) = xs :: splitComma ys := by
  induction xs with
  | nil => rw [List.nil_append, splitComma, if_pos rfl]
  | cons a l ih =>
    have ha : a ≠ ',' := fun he => h (he ▸ List.mem_cons_self a l)
    rw [List.cons_append, splitComma, if_neg ha,
      ih fun hm => h (List.mem_cons_of_mem a hm)]

lemma char_ne_of_isDigit {c d : Char} (h : Char.isDigit c = true)
    (hd : Char.isDigit d = false) : c ≠ d := by
  intro he
  rw [he, hd] at h
  exact Bool.noConfusion h

lemma jsWhitespace_of_isDigit {c : Char} (h : Char.isDigit c = true) :
    jsWhitespace c = false := by
  cases hjw : jsWhitespace c with
  | false => rfl
  | true =>
    exfalso
    simp only [jsWhitespace, Bool.or_eq_true, beq_iff_eq] at hjw
    rcases hjw with ((((h1 | h1) | h1) | h1) | h1) | h1 <;>
      (subst h1; exact absurd h (by decide))

lemma applyExp_zero (q : ℚ) : applyExp q 0 = q := by
  simp [applyExp]

lemma hasInfinityHead_cons_false {d : Char} (t : List Char) (hd : d ≠ 'I') :
    hasInfinityHead (d :: t) = false := by
  have hstep : (d :: t).take 8 = d :: t.take 7 := rfl
  simp only [hasInfinityHead, hstep, decide_eq_false_iff_not]
  intro hco
  exact hd (List.cons.inj hco).1

lemma parseFloat_cons_eq {c : Char} {r : List Char}
    (h : ∀ x ∈ c :: r, jsWhitespace x = false) :
    parseFloat (c :: r) =
      if c = '-' then
        match parseUnsignedFloat r with
        | JSNum.num q => JSNum.num (-q)
        | JSNum.inf _ => JSNum.inf true
        | JSNum.nan => JSNum.nan
      else if c = '+' then parseUnsignedFloat r
      else parseUnsignedFloat (c :: r) := by
  unfold parseFloat
  rw [dropWhile_eq_self_of_all h]

lemma numTokenUnsignedParse_inv {cs : List Char} {q : ℚ} {rest : List Char}
    (h : numTokenUnsignedParse cs = some (q, rest)) :
    ∃ tok, cs = tok ++ rest ∧
      (∃ d t, tok = d :: t ∧ Char.isDigit d = true) ∧
      (∀ c ∈ tok, Char.isDigit c = true ∨ c = '.') ∧
      parseUnsignedFloat tok = JSNum.num q := by
  simp only [numTokenUnsignedParse] at h
  split at h
  · exact absurd h (by simp)
  · rename_i he
    rw [Option.some.injEq, Prod.mk.injEq] at h
    obtain ⟨hq, hr⟩ := h
    have hIntAll : ∀ c ∈ cs.takeWhile Char.isDigit, Char.isDigit c = true :=
      fun c hc => List.mem_takeWhile_imp hc
    have hIntNe : cs.takeWhile Char.isDigit ≠ [] := by
      intro hnil
      rw [hnil] at he
      exact he rfl
    obtain ⟨d, t, hdt⟩ := List.exists_cons_of_ne_nil hIntNe
    have hdd : Char.isDigit d = true :=
      hIntAll d (hdt ▸ List.mem_cons_self d t)
    have hsplit : cs = cs.takeWhile Char.isDigit ++ cs.dropWhile Char.isDigit :=
      (List.takeWhile_append_dropWhile ..).symm
    by_cases hdot : (cs.dropWhile Char.isDigit).headD ' ' = '.'
    · -- fractional part present: the drop rest starts with a dot
      have hdropne : cs.dropWhile Char.isDigit ≠ [] := by
        intro hnil
        rw [hnil] at hdot
        exact absurd hdot (by decide)
      obtain ⟨r0, rt, hrt⟩ := List.exists_cons_of_ne_nil hdropne
      have hr0 : r0 = '.' := by rw [hrt] at hdot; exact hdot
      subst hr0
      have hfrac : parseFracPart (cs.dropWhile Char.isDigit) =
          (rt.takeWhile Char.isDigit, rt.dropWhile Char.isDigit) := by
        have hcond : (('.' :: rt).headD ' ' = '.') := rfl
        rw [hrt, parseFracPart, if_pos hcond]
        rfl
      rw [hfrac] at hq hr
      refine ⟨cs.takeWhile Char.isDigit ++ '.' :: rt.takeWhile Char.isDigit,
        ?_, ⟨d, t ++ '.' :: rt.takeWhile Char.isDigit, by rw [hdt]; rfl, hdd⟩, ?_, ?_⟩
      · rw [List.append_assoc, List.cons_append, ← hr,
          List.takeWhile_append_dropWhile, ← hrt, ← hsplit]
      · intro c hc
        rcases List.mem_append.mp hc with hc1 | hc2
        · exact Or.inl (hIntAll c hc1)
        · rcases List.mem_cons.mp hc2 with hc3 | hc4
          · exact Or.inr hc3
          · exact Or.inl (List.mem_takeWhile_imp hc4)
      · have hInf : hasInfinityHead
            (cs.takeWhile Char.isDigit ++ '.' :: rt.takeWhile Char.isDigit) = false := by
          rw [hdt, List.cons_append]
          exact hasInfinityHead_cons_false _
            (char_ne_of_isDigit hdd (by decide))
        have htw : (cs.takeWhile Char.isDigit ++
            '.' :: rt.takeWhile Char.isDigit).takeWhile Char.isDigit =
            cs.takeWhile Char.isDigit := by
          rw [takeWhile_append_all _ hIntAll, List.takeWhile_cons]
          simp
        have hdw : (cs.takeWhile Char.isDigit ++
            '.' :: rt.takeWhile Char.isDigit).dropWhile Char.isDigit =
            '.' :: rt.takeWhile Char.isDigit := by
          rw [dropWhile_append_all _ hIntAll, List.dropWhile_cons]
          simp
        have hfrac2 : parseFracPart ('.' :: rt.takeWhile Char.isDigit) =
            (rt.takeWhile Char.isDigit, []) := by
          have hcond : (('.' :: rt.takeWhile Char.isDigit).headD ' ' = '.') := rfl
          rw [parseFracPart, if_pos hcond]
          rw [List.tail_cons,
            takeWhile_eq_self_of_all fun c hc => List.mem_takeWhile_imp hc,
            dropWhile_eq_nil_of_all fun c hc => List.mem_takeWhile_imp hc]
        simp only [parseUnsignedFloat, hInf, if_false, Bool.false_eq_true, htw, hdw,
          hfrac2]
        rw [if_neg (by simp [he])]
        rw [show parseExpPart [] = 0 from rfl, applyExp_zero, hq]
    · -- no fractional part: the drop rest does not start with a dot
      have hfrac : parseFracPart (cs.dropWhile Char.isDigit) =
          ([], cs.dropWhile Char.isDigit) := by
        rw [parseFracPart, if_neg hdot]
      rw [hfrac] at hq hr
      refine ⟨cs.takeWhile Char.isDigit, ?_,
        ⟨d, t, hdt, hdd⟩, fun c hc => Or.inl (hIntAll c hc), ?_⟩
      · rw [← hr]; exact hsplit
      · have hInf : hasInfinityHead (cs.takeWhile Char.isDigit) = false := by
          rw [hdt]
          exact hasInfinityHead_cons_false _ (char_ne_of_isDigit hdd (by decide))
        have htw : (cs.takeWhile Char.isDigit).takeWhile Char.isDigit =
            cs.takeWhile Char.isDigit := takeWhile_eq_self_of_all hIntAll
        have hdw : (cs.takeWhile Char.isDigit).dropWhile Char.isDigit = [] :=
          dropWhile_eq_nil_of_all hIntAll
        have hfrac2 : parseFracPart ([] : List Char) = ([], []) := rfl
        simp only [parseUnsignedFloat, hInf, if_false, Bool.false_eq_true, htw, hdw,
          hfrac2]
        rw [if_neg (by simp [he])]
        rw [show parseExpPart [] = 0 from rfl, applyExp_zero, hq]

lemma numTokenParse_inv {cs : List Char} {q : ℚ} {rest : List Char}
    (h : numTokenParse cs = some (q, rest)) :
    ∃ tok, cs = tok ++ rest ∧ tok ≠ [] ∧
      (∀ c ∈ tok, jsWhitespace c = false) ∧ ',' ∉ tok ∧
      parseFloat tok = JSNum.num q := by
  unfold numTokenParse at h
  have charset : ∀ tok : List Char, (∀ c ∈ tok, Char.isDigit c = true ∨ c = '.') →
      (∀ c ∈ tok, jsWhitespace c = false) ∧ ',' ∉ tok := by
    intro tok hall
    constructor
    · intro c hc
      rcases hall c hc with hd | hdot
      · exact jsWhitespace_of_isDigit hd
      · subst hdot; decide
    · intro hm
      rcases hall ',' hm with hd | hdot
      · exact absurd hd (by decide)
      · exact absurd hdot (by decide)
  by_cases hs : cs.headD ' ' = '-'
  · rw [if_pos hs] at h
    rcases hu : numTokenUnsignedParse cs.tail with _ | ⟨q', rest'⟩
    · rw [hu] at h; exact absurd h (by simp)
    · rw [hu] at h
      simp only [Option.map_some', Option.some.injEq, Prod.mk.injEq] at h
      obtain ⟨hq, hr⟩ := h
      obtain ⟨tok', hcs, ⟨d, t, hdt, hdd⟩, hall, hpu⟩ := numTokenUnsignedParse_inv hu
      obtain ⟨hws', hnc'⟩ := charset tok' hall
      have hcseq : cs = '-' :: cs.tail := by
        cases cs with
        | nil => exact absurd hs (by decide)
        | cons a l =>
          rw [show (a :: l).headD ' ' = a from rfl] at hs
          rw [hs]
          rfl
      refine ⟨'-' :: tok', ?_, by simp, ?_, ?_, ?_⟩
      · rw [hcseq, hcs, hr]; rfl
      · intro c hc
        rcases List.mem_cons.mp hc with hc1 | hc2
        · subst hc1; decide
        · exact hws' c hc2
      · intro hm
        rcases List.mem_cons.mp hm with hc1 | hc2
        · exact absurd hc1 (by decide)
        · exact hnc' hc2
      · have hwsall : ∀ x ∈ '-' :: tok', jsWhitespace x = false := by
          intro x hx
          rcases List.mem_cons.mp hx with hx1 | hx2
          · subst hx1; decide
          · exact hws' x hx2
        rw [parseFloat_cons_eq hwsall, if_pos rfl, hpu]
        show JSNum.num (-q') = JSNum.num q
        rw [hq]
  · rw [if_neg hs] at h
    obtain ⟨tok, hcs, ⟨d, t, hdt, hdd⟩, hall, hpu⟩ := numTokenUnsignedParse_inv h
    obtain ⟨hws, hnc⟩ := charset tok hall
    refine ⟨tok, hcs, by rw [hdt]; simp, hws, hnc, ?_⟩
    rw [hdt] at hpu hws ⊢
    rw [parseFloat_cons_eq hws,
      if_neg (char_ne_of_isDigit hdd (by decide)),
      if_neg (char_ne_of_isDigit hdd (by decide)), hpu]

lemma specPairShape_inv {s : List Char} {q1 q2 : ℚ}
    (h : specPairShape s = some (q1, q2)) :
    ∃ tok1 tok2, s = tok1 ++ ',' :: tok2 ∧
      (∀ c ∈ tok1, jsWhitespace c = false) ∧ ',' ∉ tok1 ∧
      parseFloat tok1 = JSNum.num q1 ∧ tok2 ≠ [] ∧
      (∀ c ∈ tok2, jsWhitespace c = false) ∧ ',' ∉ tok2 ∧
      parseFloat tok2 = JSNum.num q2 ∧
      numTokenParse s = some (q1, ',' :: tok2) ∧
      numTokenParse tok2 = some (q2, []) := by
  unfold specPairShape at h
  rcases h1 : numTokenParse s with _ | ⟨v1, rest⟩ <;> rw [h1] at h
  · exact Option.noConfusion h
  · have h' : specPairAfter v1 rest = some (q1, q2) := h
    unfold specPairAfter at h'
    by_cases hc : rest.headD ' ' = ','
    · rw [if_pos hc] at h'
      rcases h2 : numTokenParse rest.tail with _ | ⟨v2, rest3⟩ <;> rw [h2] at h'
      · exact Option.noConfusion h'
      · have h4 : (if rest3.isEmpty then some (v1, v2) else none) = some (q1, q2) := h'
        by_cases h3 : rest3.isEmpty
        · rw [if_pos h3] at h4
          rw [Option.some.injEq, Prod.mk.injEq] at h4
          obtain ⟨hv1, hv2⟩ := h4
          subst hv1; subst hv2
          have hrest3 : rest3 = [] := List.isEmpty_iff.mp h3
          subst hrest3
          have hrest : rest = ',' :: rest.tail := by
            cases rest with
            | nil => exact absurd hc (by decide)
            | cons a l =>
              rw [show (a :: l).headD ' ' = a from rfl] at hc
              rw [hc]
              rfl
          obtain ⟨tok1, hs1, _, hws1, hnc1, hpf1⟩ := numTokenParse_inv h1
          obtain ⟨tok2, hs2, hne2, hws2, hnc2, hpf2⟩ := numTokenParse_inv h2
          rw [List.append_nil] at hs2
          refine ⟨tok1, tok2, ?_, hws1, hnc1, hpf1, hne2, hws2, hnc2, hpf2, ?_, ?_⟩
          · rw [hs1, hrest, hs2]
          · rw [hrest, hs2]
          · rw [← hs2, h2]
        · rw [if_neg h3] at h4; exact Option.noConfusion h4
    · rw [if_neg hc] at h'; exact Option.noConfusion h'

lemma coordRegexMatch_of_shape {s : List Char} {q1 q2 : ℚ}
    (h : specPairShape s = some (q1, q2)) : coordRegexMatch s = true := by
  obtain ⟨tok1, tok2, hsplit, hws1, hnc1, hpf1, hne2, hws2, hnc2, hpf2, hp1, hp2⟩ :=
    specPairShape_inv h
  unfold coordRegexMatch
  rw [hp1]
  show coordRegexAfter (',' :: tok2) = true
  unfold coordRegexAfter
  rw [if_pos (show ((',' : Char) :: tok2).headD ' ' = ',' from rfl)]
  simp only [List.tail_cons]
  rw [dropWhile_eq_self_of_all hws2, hp2]
  rfl

/-- Claim C2 (amended side): for every input string matching the coordinate-pair
shape `<number>,<number>` (optional sign and decimal part), the coordinate
parser of `handleShow` succeeds with exactly the two values the string
denotes.  (The converse of the original claim is refuted separately: inputs
outside the shape need not signal invalid input.) -/
theorem parseCoordInput_on_shape (s : List Char) (q1 q2 : ℚ)
    (h : specPairShape s = some (q1, q2)) :
    parseCoordInput s = some (JSNum.num q1, JSNum.num q2) := by
  obtain ⟨tok1, tok2, hsplit, hws1, hnc1, hpf1, hne2, hws2, hnc2, hpf2, _, _⟩ :=
    specPairShape_inv h
  have hsc : splitComma s = [tok1, tok2] := by
    rw [hsplit, splitComma_append _ hnc1, splitComma_no_comma hnc2]
  unfold parseCoordInput
  rw [hsc]
  simp only [List.map_cons, List.map_nil, jsTrim_eq_self hws1, jsTrim_eq_self hws2,
    hpf1, hpf2]
  rfl

/-- Witness for C2 (amended) at the concrete shape-matching input `"1.5,-2"`. -/
theorem parseCoordInput_on_shape_witness :
    specPairShape ("1.5,-2").toList = some (3 / 2, -2) ∧
      parseCoordInput ("1.5,-2").toList =
        some (JSNum.num (3 / 2), JSNum.num (-2)) :=
  ⟨by decide, parseCoordInput_on_shape _ (3 / 2) (-2) (by decide)⟩

/-- Counterexample to claim C2 as stated: the input `"1a,2"` does not match the
coordinate-pair shape, yet the parser does not signal invalid input — it
succeeds with the numeric prefixes (1, 2), because `parseFloat` accepts any
string with a numeric prefix. -/
theorem parseCoordInput_claim_counterexample :
    specPairShape ("1a,2").toList = none ∧
      parseCoordInput ("1a,2").toList = some (JSNum.num 1, JSNum.num 2) :=
  ⟨by decide, by decide⟩

/-- Claim C5: a query whose trimmed length is below 3, or which matches the
coordinate-pair shape, makes the search effect clear the suggestion list and
return without issuing any network request. -/
theorem searchPlaces_short_circuit (coords : List Char)
    (h : (jsTrim coords).length < 3 ∨ ∃ q1 q2, specPairShape coords = some (q1, q2)) :
    searchPlaces coords = SearchAction.clear := by
  unfold searchPlaces
  by_cases hlen : (jsTrim coords).length < 3
  · rw [if_pos hlen]
  · rw [if_neg hlen]
    rcases h with h | ⟨q1, q2, h⟩
    · exact absurd h hlen
    · rw [if_pos (coordRegexMatch_of_shape h)]

/-- Witness for C5 at the coordinate-shaped query `"1,2"`. -/
theorem searchPlaces_short_circuit_witness :
    searchPlaces ("1,2").toList = SearchAction.clear :=
  searchPlaces_short_circuit _ (Or.inr ⟨1, 2, by decide⟩)

/-- Claim C9: whenever the coordinate parser signals invalid input, `handleShow`
shows the alert (second component `true`) and leaves the entire component state
— focus location included — unchanged. -/
theorem handleShow_invalid_leaves_state (st : UIState)
    (h : parseCoordInput st.coords = none) :
    handleShow st = (st, true) := by
  unfold handleShow
  rw [h]

/-- A concrete component state with the unparseable input `"abc"`. -/
def sampleState : UIState :=
  { coords := ("abc").toList
    lat := none
    lon := none
    suggestions := []
    showSuggestions := true
    selectedIndex := -1
    savedCoords := [] }

/-- Witness for C9 at the unparseable input `"abc"`. -/
theorem handleShow_invalid_leaves_state_witness :
    handleShow sampleState = (sampleState, true) :=
  handleShow_invalid_leaves_state _ (by decide)

/-! ### The saved-point store as a transition system (claim C4) -/

/-- One user-level operation on the saved-point collection.  `opSave` carries
the `Date.now()` millisecond value observed at the click together with the
focus location and name text at that moment; `opInit` carries the fetched
bundled dataset. -/
inductive StoreOp where
  | opInit (ds : List LocationData)
  | opSave (ts : Nat) (lat lon : ℚ) (nm : String)
  | opDel (id : String)
deriving DecidableEq, Repr

/-- Effect of one operation, exactly the corresponding handler of `App.tsx`. -/
def applyOp : StoreOp → List SavedCoord → List SavedCoord
  | .opInit ds, prev => loadLocations ds prev
  | .opSave ts la lo nm, prev => handleSaveCoord (toString ts) la lo nm prev
  | .opDel id, prev => handleDeleteCoord id prev

/-- Run a sequence of operations from a starting collection. -/
def runOps : List StoreOp → List SavedCoord → List SavedCoord
  | [], st => st
  | o :: os, st => runOps os (applyOp o st)

/-- Freshness of one operation relative to the current collection: a save's
timestamp token is not an id already present, and a dataset derives pairwise
distinct ids.  `Date.now()` guarantees neither: two clicks in the same
millisecond observe the same value. -/
def opFresh : StoreOp → List SavedCoord → Bool
  | .opInit ds, _ => decide (idsOf (locationsToCoords ds)).Nodup
  | .opSave ts _ _ _, st => !((idsOf st).contains (toString ts))
  | .opDel _, _ => true

/-- Freshness along a whole run. -/
def opsFresh : List StoreOp → List SavedCoord → Bool
  | [], _ => true
  | o :: os, st => opFresh o st && opsFresh os (applyOp o st)

lemma loadLocations_eq (ds : List LocationData) (prev : List SavedCoord) :
    loadLocations ds prev =
      prev ++ (locationsToCoords ds).filter
        (fun coord => !((prev.map (·.id)).contains coord.id)) := rfl

lemma contains_false_not_mem {l : List String} {a : String}
    (h : l.contains a = false) : a ∉ l := by
  intro hm
  have helem : l.elem a = true := List.elem_iff.mpr hm
  rw [show l.contains a = l.elem a from rfl, helem] at h
  exact Bool.noConfusion h

lemma idsUnique_save {st : List SavedCoord} {id : String} (la lo : ℚ) (nm : String)
    (h : idsUnique st) (hf : id ∉ idsOf st) :
    idsUnique (handleSaveCoord id la lo nm st) := by
  unfold idsUnique idsOf handleSaveCoord
  rw [List.map_append, List.nodup_append]
  refine ⟨h, List.nodup_singleton _, ?_⟩
  intro a ha hb
  simp only [List.map_cons, List.map_nil, List.mem_singleton] at hb
  exact hf (hb ▸ ha)

lemma idsUnique_delete {st : List SavedCoord} (h : idsUnique st) (id : String) :
    idsUnique (handleDeleteCoord id st) := by
  unfold idsUnique idsOf handleDeleteCoord
  exact List.Nodup.sublist (List.Sublist.map _ (List.filter_sublist st)) h

lemma idsUnique_load {st : List SavedCoord} {ds : List LocationData}
    (h : idsUnique st) (hds : (idsOf (locationsToCoords ds)).Nodup) :
    idsUnique (loadLocations ds st) := by
  rw [loadLocations_eq]
  unfold idsUnique idsOf
  rw [List.map_append, List.nodup_append]
  refine ⟨h, ?_, ?_⟩
  · exact List.Nodup.sublist (List.Sublist.map _ (List.filter_sublist _)) hds
  · intro a ha hb
    obtain ⟨c, hc, rfl⟩ := List.mem_map.mp hb
    have hmem := List.of_mem_filter hc
    rw [Bool.not_eq_true'] at hmem
    exact contains_false_not_mem hmem ha

/-- Claim C4 (amended): from a collection with unique ids, ids remain unique
after every sequence of initialize, save and delete operations, provided each
save's timestamp token is fresh for the collection it extends and each
initialize's dataset derives pairwise-distinct ids.  (As stated the claim
fails, since `Date.now()` can repeat: see the counterexample.) -/
theorem runOps_idsUnique (ops : List StoreOp) (st : List SavedCoord)
    (h : idsUnique st) (hf : opsFresh ops st = true) :
    idsUnique (runOps ops st) := by
  induction ops generalizing st with
  | nil => exact h
  | cons o os ih =>
    have hf' : (opFresh o st && opsFresh os (applyOp o st)) = true := hf
    rw [Bool.and_eq_true] at hf'
    obtain ⟨h1, h2⟩ := hf'
    show idsUnique (runOps os (applyOp o st))
    refine ih _ ?_ h2
    cases o with
    | opInit ds =>
      have h1' : decide (idsOf (locationsToCoords ds)).Nodup = true := h1
      exact idsUnique_load h (of_decide_eq_true h1')
    | opSave ts la lo nm =>
      have h1' : (!((idsOf st).contains (toString ts))) = true := h1
      rw [Bool.not_eq_true'] at h1'
      exact idsUnique_save la lo nm h (contains_false_not_mem h1')
    | opDel id => exact idsUnique_delete h id

/-- Witness for C4 (amended) on a concrete run with distinct timestamps. -/
theorem runOps_idsUnique_witness :
    idsUnique (runOps
      [StoreOp.opInit [], StoreOp.opSave 7 0 0 "x", StoreOp.opDel "7"] []) :=
  runOps_idsUnique _ _ (by decide) (by decide)

/-- Counterexample to claim C4 as stated: two saves that observe the same
`Date.now()` millisecond (here 5) append two points with the same id `"5"`, so
a reachable collection violates id uniqueness. -/
theorem runOps_duplicate_id_counterexample :
    ¬ idsUnique
      (runOps [StoreOp.opSave 5 1 1 "a", StoreOp.opSave 5 2 2 "b"] []) := by
  decide

/-! ### Render-surface lifecycle (claim C3) -/

/-- State of the map-initialization effect (App.tsx 228–261) as React runs it:
the `lat`/`lon` state, the identity of the `handleMapViewChange` callback
(recreated whenever `savedCoords` changes; tracked as a version number), the
current surface held in `mapRef` (as a creation ordinal), and how many
surfaces have been created and destroyed. -/
structure LifecycleState where
  lat : Option ℚ
  lon : Option ℚ
  handlerVersion : Nat
  surface : Option Nat
  nextSurfaceId : Nat
  destroyedCount : Nat
deriving DecidableEq, Repr

/-- Component state on mount: no focus location, no surface. -/
def initialLifecycle : LifecycleState :=
  { lat := none, lon := none, handlerVersion := 0, surface := none,
    nextSurfaceId := 0, destroyedCount := 0 }

/-- The effect's cleanup (App.tsx 253–260): if a map exists, `map.remove()` it
and null the ref.  React runs the cleanup before re-running the effect whenever
one of the dependencies `[lat, lon, handleMapViewChange]` changed, and at
teardown. -/
def mapEffectCleanup (s : LifecycleState) : LifecycleState :=
  match s.surface with
  | some _ => { s with surface := none, destroyedCount := s.destroyedCount + 1 }
  | none => s

/-- The effect's body (App.tsx 229–251): when the container div is rendered
(it exists exactly when `lat` and `lon` are set), no map exists yet, and the
focus location is set, construct the map and wire the three settle events. -/
def mapEffectBody (s : LifecycleState) : LifecycleState :=
  if s.surface = none ∧ s.lat ≠ none ∧ s.lon ≠ none then
    { s with surface := some s.nextSurfaceId
             nextSurfaceId := s.nextSurfaceId + 1 }
  else s

/-- A re-render on which the dependency triple `(lat, lon, handleMapViewChange)`
changed: React runs the previous cleanup, then the effect body. -/
def rerunMapEffect (s : LifecycleState) : LifecycleState :=
  mapEffectBody (mapEffectCleanup s)

/-- A FocusLocation change (`setLat`/`setLon`): if the values are unchanged
React bails out; otherwise the effect's dependencies changed, so the effect is
cleaned up and re-run. -/
def stepFocus (a b : ℚ) (s : LifecycleState) : LifecycleState :=
  if s.lat = some a ∧ s.lon = some b then s
  else rerunMapEffect { s with lat := some a, lon := some b }

/-- Claim C3 fails on the code: the surface created by the first FocusLocation
assignment (ordinal 0) is destroyed and a new one (ordinal 1) created on the
very next FocusLocation change, before any teardown — the init effect lists
`lat` and `lon` among its dependencies and its cleanup removes the map, so
`Active` does return to `Uninitialized` (and then re-enters `Active` with a
fresh surface) on every focus change. -/
theorem mapSurface_recreated_on_focus_change :
    (stepFocus 10 20 initialLifecycle).surface = some 0 ∧
      (stepFocus 10 20 initialLifecycle).destroyedCount = 0 ∧
      (stepFocus 30 40 (stepFocus 10 20 initialLifecycle)).destroyedCount = 1 ∧
      (stepFocus 30 40 (stepFocus 10 20 initialLifecycle)).surface = some 1 := by
  decide

end MapApp
